import Mathlib

/-!
Verification development for the AdLocalizerLight repository.

The repository is a video-localization pipeline with two near-identical
front ends: a Flask web app (app.py) and a Streamlit app
(AdLocalizerLight.py).  This file shallowly embeds the data model and the
operations of both variants:

- Python dicts are modelled as ordered association lists with
  replace-or-append insertion (exactly the mutation semantics of
  Python dict assignment).
- External collaborators (the OpenAI translation service, the ElevenLabs
  speech service, the ffmpeg transcoder) are modelled as oracle functions
  passed in as parameters; the embedded code reproduces exactly how the
  Python code reacts to each collaborator outcome.
- Route handlers and Streamlit button handlers become pure functions from
  request plus session state to response plus session state.
-/

namespace AdLocalizer

/-! ## Python dict model -/

/-- A Python dict with String keys and String values, as an ordered
association list.  The operations below reproduce dict lookup, membership
and assignment semantics (assignment updates in place, new keys append). -/
abbrev Dict := List (String × String)

/-- Dict lookup: first binding of the key, as Python `d[k]` / `d.get(k)`. -/
def dget : Dict → String → Option String
  | [], _ => none
  | p :: d, k => if p.1 = k then some p.2 else dget d k

/-- Dict membership, as Python `k in d`. -/
def dmem (d : Dict) (k : String) : Bool := (dget d k).isSome

/-- Dict assignment `d[k] = v`: updates the existing binding in place, or
appends a new binding at the end, exactly as a Python dict does. -/
def dinsert (d : Dict) (k v : String) : Dict :=
  if (dget d k).isSome then
    d.map (fun p => if p.1 = k then (k, v) else p)
  else d ++ [(k, v)]

/-- The ordered key list of a dict, as Python `list(d.keys())`. -/
def dkeys (d : Dict) : List String := d.map Prod.fst

/-- Python str.strip(): drop whitespace from both ends.  Defined by
structural recursion over the character list so that concrete instances
evaluate inside the kernel. -/
def pyStrip (s : String) : String :=
  String.mk
    (((s.toList.dropWhile Char.isWhitespace).reverse.dropWhile
        Char.isWhitespace).reverse)

/-! ## Language catalog (app.py lines 63-81, AdLocalizerLight.py 68-86) -/

/-- The fixed LANGUAGES catalog mapping language codes to display names,
verbatim from the source. -/
def LANGUAGES : Dict :=
  [("JP", "Japanese"),
   ("CN", "Traditional Chinese"),
   ("DE", "German"),
   ("IN", "Hindi"),
   ("FR", "French"),
   ("KR", "Korean"),
   ("BR", "Brazilian Portuguese"),
   ("IT", "Italian"),
   ("ES", "Spanish"),
   ("ID", "Indonesian"),
   ("TR", "Turkish"),
   ("PH", "Filipino"),
   ("PL", "Polish"),
   ("SA", "Arabic"),
   ("MY", "Malay"),
   ("VN", "Vietnamese"),
   ("TH", "Thai")]

/-! ## Translator stage (app.py translate_text, lines 144-160) -/

/-- The translation collaborator: given the target language display name,
the translation mode and the user text, either returns the completion text
or fails with an error message.  This is the OpenAI
chat.completions.create call boundary; the system message is a pure
function of the language name and mode, so those two strings plus the user
text determine the request. -/
abbrev TrOracle := String → String → String → Except String String

/-- Embedding of translate_text (app.py lines 144-160): calls the
collaborator inside a try/except; on success returns the stripped
completion, on any exception logs and returns None.  A failure is never
re-raised. -/
def translate_text (oracle : TrOracle)
    (text target_language translation_mode : String) : Option String :=
  match oracle target_language translation_mode text with
  | Except.ok content => some (pyStrip content)
  | Except.error _ => none

/-- The value the translate-route loop stores for a language code, if
any: the code must be in the catalog (unknown codes are skipped), and
the stored value is the translate_text result when that passes the
Python truthiness check `if translation:` — that is, when it is neither
None nor the empty string.  A completion that strips to empty is
dropped exactly like a failure. -/
def langTranslationOutcome (oracle : TrOracle)
    (text translation_mode lang_code : String) : Option String :=
  match dget LANGUAGES lang_code with
  | some lang_name =>
    match translate_text oracle text lang_name translation_mode with
    | some translation =>
      if translation ≠ "" then some translation else none
    | none => none
  | none => none

/-- The translations-building loop of the translate route (app.py lines
303-309): iterate the requested codes in order; skip codes not in
LANGUAGES; store a translation only when `if translation:` holds, i.e.
the result is neither None nor empty after stripping. -/
def buildTranslations (oracle : TrOracle)
    (text translation_mode : String) (languages : List String) : Dict :=
  languages.foldl (fun translations lang_code =>
    match dget LANGUAGES lang_code with
    | some lang_name =>
      match translate_text oracle text lang_name translation_mode with
      | some translation =>
        if translation ≠ "" then dinsert translations lang_code translation
        else translations
      | none => translations
    | none => translations) []

/-- An HTTP error response (status code and message), the jsonify error
payloads of the Flask routes. -/
structure ErrResp where
  code : Nat
  msg : String
deriving DecidableEq

deriving instance DecidableEq for Except

/-- Embedding of the /api/translate route (app.py lines 292-314): strip
the text, reject empty text or an empty language list with a 400 error,
otherwise return the translations built by the per-language loop.  The
route never raises for a per-language failure. -/
def translate (oracle : TrOracle) (text : String)
    (languages : List String) (translation_mode : String) :
    Except ErrResp Dict :=
  let text := pyStrip text
  if text = "" || languages.isEmpty then
    Except.error ⟨400, "Text and languages are required"⟩
  else
    Except.ok (buildTranslations oracle text translation_mode languages)

/-- A concrete collaborator that fails for Japanese and answers every
other language with a fixed completion; used to exercise the
partial-failure scenario from the spec. -/
def failJP : TrOracle := fun lang _ _ =>
  if lang = "Japanese" then Except.error "simulated collaborator error"
  else Except.ok "bonjour"

/-- A collaborator that answers every request with a fixed completion. -/
def okAll : TrOracle := fun _ _ _ => Except.ok "ok"

/-- The loop body of the translate route, abstracted over the per-language
outcome function: insert on success, keep the dict unchanged otherwise. -/
def stepIns (f : String → Option String) (acc : Dict) (k : String) : Dict :=
  match f k with
  | some v => dinsert acc k v
  | none => acc

/-! ## Path model (Python pathlib and os.path over character lists) -/

/-- Split a character list at every slash, keeping empty pieces, the
splitting that underlies both pathlib parsing and os.path.basename. -/
def splitSlash : List Char → List (List Char)
  | [] => [[]]
  | c :: cs =>
    if c = '/' then [] :: splitSlash cs
    else
      match splitSlash cs with
      | [] => [[c]]
      | h :: t => (c :: h) :: t

/-- The parsed components of a POSIX path, as pathlib PurePosixPath
stores them: empty pieces and single-dot pieces are dropped, double-dot
pieces are kept as ordinary components. -/
def pathParts (s : List Char) : List (List Char) :=
  (splitSlash s).filter (fun p => decide (p ≠ [] ∧ p ≠ ['.']))

/-- pathlib Path(s).name: the final parsed component, or empty when the
path has no components. -/
def pathNameL (s : List Char) : List Char := (pathParts s).getLastD []

/-- pathlib Path(s).name on strings. -/
def pyPathName (s : String) : String := String.mk (pathNameL s.toList)

/-- os.path.basename: everything after the last slash, with no component
normalization at all. -/
def pyBasename (s : String) : String :=
  String.mk ((splitSlash s.toList).getLastD [])

/-- Python s.split(sep)[0] for a single-character separator: the piece
before the first occurrence of the separator. -/
def takeUntilChar (sep : Char) : List Char → List Char
  | [] => []
  | c :: cs => if c = sep then [] else c :: takeUntilChar sep cs

/-- The per-language mixed-video file name used by both variants:
f-string of the video file name stem (split at the first dot), the
language code and the .mp4 suffix. -/
def mixOutName (video_filename lang_code : String) : String :=
  String.mk (takeUntilChar '.' video_filename.toList)
    ++ "_" ++ lang_code ++ ".mp4"

/-! ## Streamlit session state (AdLocalizerLight.py main, lines 343-622) -/

/-- The Streamlit session state owned by main: the three per-language
dicts plus the uploaded video path.  The spec reads this as one
LanguageResult per language, with stage_reached derived from which dicts
hold the language. -/
structure AppState where
  translations : Dict
  audio_files : Dict
  mixed_videos : Dict
  video_path : Option String
deriving DecidableEq

/-- The stage a language has reached in a given state, numerically:
0 pending, 1 translated, 2 voiced, 3 mixed.  The code stores no failed
marker of any kind, so failed is not representable; a language whose
stage call failed is simply absent from that stage dict. -/
def stage_reached (s : AppState) (lang : String) : Nat :=
  if dmem s.mixed_videos lang then 3
  else if dmem s.audio_files lang then 2
  else if dmem s.translations lang then 1
  else 0

/-- The voice-synthesis collaborator boundary
(generate_elevenlabs_voice): given the language code and the translated
text it returns the written output file path, or none on any failure (the
function catches every error and returns None). -/
abbrev VoiceOracle := String → String → Option String

/-- The ffmpeg mix collaborator outcome for the Streamlit mix loop:
whether mix_audio_with_video succeeds for a given voiceover file and
video path (the function returns True or False, never raises). -/
abbrev MixOracle := String → String → Bool

/-- The translations loop of the Translate Text button
(AdLocalizerLight.py lines 514-521): reset the dict, then store each
translation that passes the `if translation:` truthiness check —
neither None nor empty after stripping.  The Python code indexes
LANGUAGES directly; the multiselect widget only offers catalog codes, so
the lookup cannot miss at run time, and the embedding totalizes it with
a default. -/
def stTranslations (oracle : TrOracle) (text translation_mode : String)
    (selected : List String) : Dict :=
  selected.foldl (fun translations lang_code =>
    let lang_name := (dget LANGUAGES lang_code).getD ""
    match translate_text oracle text lang_name translation_mode with
    | some translation =>
      if translation ≠ "" then dinsert translations lang_code translation
      else translations
    | none => translations) []

/-- The Translate Text button handler (AdLocalizerLight.py lines
510-521): warn and change nothing when the text or the selection is
empty, otherwise rebuild the translations dict from scratch. -/
def clickTranslate (oracle : TrOracle) (text : String)
    (selected : List String) (translation_mode : String)
    (s : AppState) : AppState :=
  if text = "" || selected.isEmpty then s
  else { s with translations := stTranslations oracle text translation_mode selected }

/-- The Generate Voiceovers button handler (AdLocalizerLight.py lines
535-546): the button is only rendered when translations is non-empty;
it resets audio_files and stores one artifact per language whose
synthesis succeeded. -/
def clickVoice (voice : VoiceOracle) (s : AppState) : AppState :=
  if s.translations.isEmpty then s
  else { s with audio_files := s.translations.foldl (fun acc p =>
      match voice p.1 p.2 with
      | some output_file => dinsert acc p.1 output_file
      | none => acc) [] }

/-- The Mix Audio with Video button handler (AdLocalizerLight.py lines
580-591): warn and change nothing when audio_files is empty or no video
was uploaded, otherwise reset mixed_videos and store one output per
language whose mix succeeded. -/
def clickMix (mixer : MixOracle) (s : AppState) : AppState :=
  if s.audio_files.isEmpty || s.video_path.isNone then s
  else
    let video_path := s.video_path.getD ""
    { s with mixed_videos := s.audio_files.foldl (fun acc p =>
        if mixer p.2 video_path then
          dinsert acc p.1
            ("New clean ones 2025/export/"
              ++ mixOutName (pyPathName video_path) p.1)
        else acc) [] }

/-- One stage call as the user can make it from the UI, carrying the
collaborator behavior observed during that call. -/
inductive StageCall where
  | translateCall (oracle : TrOracle) (text : String)
      (selected : List String) (translation_mode : String)
  | voiceCall (voice : VoiceOracle)
  | mixCall (mixer : MixOracle)

/-- Run one stage call against the session state. -/
def runCall : StageCall → AppState → AppState
  | StageCall.translateCall oracle text selected mode, s =>
      clickTranslate oracle text selected mode s
  | StageCall.voiceCall voice, s => clickVoice voice s
  | StageCall.mixCall mixer, s => clickMix mixer s

/-- Run a sequence of stage calls in order. -/
def runCalls (calls : List StageCall) (s : AppState) : AppState :=
  calls.foldl (fun st c => runCall c st) s

/-! ## ffmpeg mix model (app.py mix_audio_with_video, lines 198-223;
AdLocalizerLight.py lines 218-247) -/

/-- An ffmpeg audio filter-graph stream: an input file audio stream with
its duration, the volume gain filter, or the two-input amix filter with
its duration mode, exactly the graph the source builds. -/
inductive AStream where
  | fileInput (dur : ℚ)
  | volumeFilter (gain : ℚ) (inner : AStream)
  | amix2 (duration_mode : String) (left right : AStream)
deriving DecidableEq

/-- Duration semantics of the modelled filters: volume preserves
duration; amix takes the first input duration in mode first, the
shorter in mode shortest, and the longer otherwise (longest, the ffmpeg
default). -/
def astreamDur : AStream → ℚ
  | AStream.fileInput d => d
  | AStream.volumeFilter _ inner => astreamDur inner
  | AStream.amix2 mode a b =>
    if mode = "first" then astreamDur a
    else if mode = "shortest" then min (astreamDur a) (astreamDur b)
    else max (astreamDur a) (astreamDur b)

/-- A media input file, by the durations of its video and audio
streams (an audio-only file carries a zero video duration). -/
structure MediaFile where
  videoDur : ℚ
  audioDur : ℚ
deriving DecidableEq

/-- The transcoder invocation mix_audio_with_video assembles: the output
file, the copied video stream, the mixed audio graph and the codecs. -/
structure OutputSpec where
  output_file : String
  videoStreamDur : ℚ
  audioGraph : AStream
  acodec : String
  vcodec : String
deriving DecidableEq

/-- Embedding of mix_audio_with_video: volume original_volume on the
video audio track and voiceover_volume on the voiceover track, amix of
the two with duration first, aac audio encoding, video stream copied. -/
def mix_audio_with_video (audio_file video_file : MediaFile)
    (output_file : String) (original_volume voiceover_volume : ℚ) :
    OutputSpec :=
  { output_file := output_file
  , videoStreamDur := video_file.videoDur
  , audioGraph := AStream.amix2 "first"
      (AStream.volumeFilter original_volume
        (AStream.fileInput video_file.audioDur))
      (AStream.volumeFilter voiceover_volume
        (AStream.fileInput audio_file.audioDur))
  , acodec := "aac"
  , vcodec := "copy" }

/-- Container duration of the produced file: the longer of its video
stream and its audio stream, the standard mp4 container semantics. -/
def outputDuration (o : OutputSpec) : ℚ :=
  max o.videoStreamDur (astreamDur o.audioGraph)

/-! ## Flask session routes (app.py) -/

/-- The Flask per-session state the mix and download routes read and
write: session id, the voiceover dict, the uploaded video path and the
mixed-videos dict. -/
structure FlaskSession where
  session_id : String
  audio_files : Dict
  video_path : Option String
  mixed_videos : Dict
deriving DecidableEq

/-- The ffmpeg mix collaborator outcome for the Flask mix loop: whether
mix_audio_with_video succeeds for (audio_file, video_path,
original_volume, voiceover_volume). -/
abbrev MixOk := String → String → ℚ → ℚ → Bool

/-- Embedding of the /api/mix-audio route (app.py lines 378-409): reject
with a 400 error and touch nothing when the audio dict is empty or no
video path is stored; otherwise rebuild mixed_videos with one export
path per language whose mix succeeded. -/
def mix_audio_route (mixOk : MixOk)
    (original_volume voiceover_volume : ℚ) (s : FlaskSession) :
    Except ErrResp Dict × FlaskSession :=
  if s.audio_files.isEmpty || s.video_path.isNone then
    (Except.error ⟨400, "Audio files and video path are required"⟩, s)
  else
    let video_path := s.video_path.getD ""
    let video_filename := pyPathName video_path
    let mixed_videos := s.audio_files.foldl (fun acc p =>
      if mixOk p.2 video_path original_volume voiceover_volume then
        dinsert acc p.1
          ("temp_files/" ++ s.session_id ++ "/export/"
            ++ mixOutName video_filename p.1)
      else acc) []
    (Except.ok mixed_videos, { s with mixed_videos := mixed_videos })

/-- Embedding of the /api/download-all route (app.py lines 502-530):
404 when the mixed-videos dict is empty, otherwise a zip archive listing
one (arcname, source path) entry per stored video whose file exists. -/
def download_all (file_exists : String → Bool) (s : FlaskSession) :
    Except ErrResp (List (String × String)) :=
  if s.mixed_videos.isEmpty then
    Except.error ⟨404, "No videos to download"⟩
  else
    Except.ok ((s.mixed_videos.filter (fun p => file_exists p.2)).map
      (fun p => (pyBasename p.2, p.2)))

/-- The file the /audio/ preview route opens (app.py lines 462-480):
the requested path is reduced to its pathlib name and resolved inside
the session audio directory. -/
def serveAudioTarget (session_id filepath : List Char) : List Char :=
  ("temp_files/").toList ++ session_id ++ ("/audio/").toList
    ++ pathNameL filepath

/-- The file the /video/ preview route opens (app.py lines 482-500):
same shape as the audio route, inside the session export directory. -/
def serveVideoTarget (session_id filepath : List Char) : List Char :=
  ("temp_files/").toList ++ session_id ++ ("/export/").toList
    ++ pathNameL filepath

/-! ## Transcription workflow (app.py transcribe_video, lines 258-285) -/

/-- One transcription run described by its collaborator outcomes: whether
audio extraction succeeds, whether a failed extraction still leaves a
written output file behind (ffmpeg opens and writes the output
progressively, so a failure can leave a truncated file), and the
speech-to-text result (none on a collaborator error). -/
structure TranscribeRun where
  extract_succeeds : Bool
  extract_leaves_file : Bool
  stt_result : Option String
deriving DecidableEq

/-- What a transcription run produces: the returned transcription and
whether the temporary extracted-audio file is still on disk afterwards. -/
structure TranscribeOutcome where
  result : Option String
  temp_audio_remains : Bool
deriving DecidableEq

/-- Embedding of transcribe_video: on extraction failure the function
returns None immediately, before the cleanup block, so whatever the
transcoder wrote stays on disk; otherwise it transcribes (the
transcription helper catches every error and returns None), then removes
the temporary audio file unconditionally and returns the result. -/
def transcribe_video (run : TranscribeRun) : TranscribeOutcome :=
  let file_present := run.extract_succeeds || run.extract_leaves_file
  if run.extract_succeeds = false then
    { result := none, temp_audio_remains := file_present }
  else
    { result := run.stt_result, temp_audio_remains := false }

/-! ## Concrete collaborator behaviors and inputs for the scenarios -/

/-- A collaborator that succeeds for every language with a fixed text. -/
def okTr : TrOracle := fun _ _ _ => Except.ok "t"

/-- A collaborator that fails for French and succeeds otherwise. -/
def failFRTr : TrOracle := fun lang _ _ =>
  if lang = "French" then Except.error "simulated collaborator error"
  else Except.ok "t"

/-- A voice collaborator that always writes an artifact. -/
def okVoiceGen : VoiceOracle := fun lang _ => some (lang ++ ".mp3")

/-- A Streamlit mix collaborator that always succeeds. -/
def okMixAll : MixOracle := fun _ _ => true

/-- A Flask mix collaborator that always fails. -/
def alwaysFailMix : MixOk := fun _ _ _ _ => false

/-- A fresh Streamlit session with a video already uploaded. -/
def demoStart : AppState :=
  ⟨[], [], [], some "New clean ones 2025/video/v.mp4"⟩

/-- First full pass: translate JP and FR, voice them, mix them. -/
def passOne : List StageCall :=
  [StageCall.translateCall okTr "hi" ["JP", "FR"] "faithful",
   StageCall.voiceCall okVoiceGen,
   StageCall.mixCall okMixAll]

/-- Second pass: same languages, but the translator now fails for FR. -/
def passTwo : List StageCall :=
  [StageCall.translateCall failFRTr "hi" ["JP", "FR"] "faithful",
   StageCall.voiceCall okVoiceGen,
   StageCall.mixCall okMixAll]

end AdLocalizer

namespace AdLocalizer

/-! ## Dict lemmas -/

theorem dget_append (d e : Dict) (k : String) :
    dget (d ++ e) k = ((dget d k).rec (dget e k) (fun v => some v)) := by
  induction d with
  | nil => simp [dget]
  | cons p d ih =>
    by_cases h : p.1 = k <;> simp [dget, h, ih]

theorem dget_replaceMap (d : Dict) (k v l : String) :
    dget (d.map (fun p => if p.1 = k then (k, v) else p)) l =
      if l = k then (dget d k).map (fun _ => v) else dget d l := by
  induction d with
  | nil => simp [dget]
  | cons p d ih =>
    simp only [List.map_cons]
    by_cases hpk : p.1 = k
    · simp only [hpk, if_true, ite_true]
      by_cases hlk : l = k
      · subst hlk
        simp [dget, ih, hpk]
      · have hkl : ¬(k = l) := fun h => hlk h.symm
        have hpl : ¬(p.1 = l) := fun h => hkl (hpk ▸ h)
        simp [dget, hkl, ih, hlk, hpl]
    · simp only [hpk, if_false, ite_false]
      by_cases hpl : p.1 = l
      · have hlk : ¬(l = k) := fun h => hpk (by rw [hpl, h])
        simp [dget, hpl, hlk]
      · simp [dget, hpl, ih, hpk]

theorem dget_dinsert (d : Dict) (k v l : String) :
    dget (dinsert d k v) l = if l = k then some v else dget d l := by
  unfold dinsert
  by_cases h : (dget d k).isSome
  · obtain ⟨w, hw⟩ := Option.isSome_iff_exists.mp h
    simp [h, dget_replaceMap, hw]
  · simp only [h, if_false, Bool.false_eq_true, ite_false, dget_append]
    by_cases hlk : l = k
    · subst hlk
      have hnone : dget d l = none := Option.not_isSome_iff_eq_none.mp h
      simp [hnone, dget]
    · have hkl : ¬(k = l) := fun hh => hlk hh.symm
      cases hd : dget d l <;> simp [hd, dget, hlk, hkl]

theorem dmem_dinsert (d : Dict) (k v l : String) :
    dmem (dinsert d k v) l = if l = k then true else dmem d l := by
  by_cases h : l = k <;> simp [dmem, dget_dinsert, h]

theorem dkeys_dinsert_of_not_mem (d : Dict) (k v : String)
    (h : dmem d k = false) : dkeys (dinsert d k v) = dkeys d ++ [k] := by
  have hnone : (dget d k).isSome = false := h
  simp [dinsert, hnone, dkeys]

theorem dmem_iff_exists (d : Dict) (k : String) :
    dmem d k = true ↔ ∃ p, p ∈ d ∧ p.1 = k := by
  induction d with
  | nil => simp [dmem, dget]
  | cons p d ih =>
    by_cases h : p.1 = k
    · constructor
      · intro _
        exact ⟨p, List.mem_cons_self p d, h⟩
      · intro _
        simp [dmem, dget, h]
    · have step : dmem (p :: d) k = dmem d k := by simp [dmem, dget, h]
      rw [step, ih]
      constructor
      · rintro ⟨q, hq, hk⟩
        exact ⟨q, List.mem_cons_of_mem p hq, hk⟩
      · rintro ⟨q, hq, hk⟩
        rcases List.mem_cons.mp hq with heq | hmem
        · exact absurd (heq ▸ hk) h
        · exact ⟨q, hmem, hk⟩

theorem mem_imp_dmem (d : Dict) (p : String × String) (h : p ∈ d) :
    dmem d p.1 = true := (dmem_iff_exists d p.1).mpr ⟨p, h, rfl⟩

/-! ## Folding lemmas for the per-language loops -/

theorem foldl_congr_fun {α β : Type} (f g : α → β → α)
    (h : ∀ a b, f a b = g a b) :
    ∀ (l : List β) (a : α), l.foldl f a = l.foldl g a := by
  intro l
  induction l with
  | nil => intro a; rfl
  | cons b l ih => intro a; simp only [List.foldl_cons, h, ih]

theorem dget_foldl_stepIns (f : String → Option String) :
    ∀ (ks : List String) (acc : Dict) (l : String),
      dget (ks.foldl (stepIns f) acc) l =
        if l ∈ ks ∧ (f l).isSome then f l else dget acc l := by
  intro ks
  induction ks with
  | nil => intro acc l; simp
  | cons c ks ih =>
    intro acc l
    simp only [List.foldl_cons, ih]
    by_cases hks : l ∈ ks ∧ (f l).isSome
    · have : l ∈ c :: ks := List.mem_cons_of_mem _ hks.1
      simp [hks, this, hks.2]
    · simp only [hks, if_false, ite_false]
      by_cases hlc : l = c
      · subst hlc
        cases hfl : f l with
        | some v =>
          simp [stepIns, hfl, dget_dinsert, List.mem_cons]
        | none =>
          simp [stepIns, hfl]
      · cases hfc : f c with
        | some v =>
          have hmem : (l ∈ c :: ks) ↔ (l ∈ ks) := by
            simp [List.mem_cons, hlc]
          simp [stepIns, hfc, dget_dinsert, hlc, hmem, hks]
        | none =>
          have hmem : (l ∈ c :: ks) ↔ (l ∈ ks) := by
            simp [List.mem_cons, hlc]
          simp [stepIns, hfc, hmem, hks]

theorem dkeys_foldl_stepIns (f : String → Option String) :
    ∀ (ks : List String) (acc : Dict), ks.Nodup →
      (∀ k ∈ ks, dmem acc k = false) →
      dkeys (ks.foldl (stepIns f) acc) =
        dkeys acc ++ ks.filter (fun k => (f k).isSome) := by
  intro ks
  induction ks with
  | nil => intro acc _ _; simp
  | cons c ks ih =>
    intro acc hnd hacc
    have hc_not : c ∉ ks := (List.nodup_cons.mp hnd).1
    have hnd' : ks.Nodup := (List.nodup_cons.mp hnd).2
    have hacc_c : dmem acc c = false := hacc c (List.mem_cons_self c ks)
    have hacc' : ∀ k ∈ ks, dmem (stepIns f acc c) k = false := by
      intro k hk
      have hkc : ¬(k = c) := fun h => hc_not (h ▸ hk)
      cases hfc : f c with
      | some v => simp [stepIns, hfc, dmem_dinsert, hkc,
          hacc k (List.mem_cons_of_mem _ hk)]
      | none => simp [stepIns, hfc, hacc k (List.mem_cons_of_mem _ hk)]
    simp only [List.foldl_cons, ih _ hnd' hacc']
    cases hfc : f c with
    | some v =>
      simp [stepIns, hfc, dkeys_dinsert_of_not_mem _ _ _ hacc_c,
        List.filter_cons, List.append_assoc]
    | none =>
      simp [stepIns, hfc, List.filter_cons]

theorem foldl_stepIns_filter (f : String → Option String) (p : String → Bool)
    (hf : ∀ l, p l = false → f l = none) :
    ∀ (ks : List String) (acc : Dict),
      ks.foldl (stepIns f) acc = (ks.filter p).foldl (stepIns f) acc := by
  intro ks
  induction ks with
  | nil => intro acc; rfl
  | cons c ks ih =>
    intro acc
    cases hp : p c with
    | true => simp [List.filter_cons, hp, ih]
    | false =>
      have : stepIns f acc c = acc := by simp [stepIns, hf c hp]
      simp [List.filter_cons, hp, ih, this]

theorem buildTranslations_eq_foldl (oracle : TrOracle)
    (text translation_mode : String) (languages : List String) :
    buildTranslations oracle text translation_mode languages =
      languages.foldl
        (stepIns (langTranslationOutcome oracle text translation_mode)) [] := by
  unfold buildTranslations
  refine foldl_congr_fun _ _ ?_ languages []
  intro acc code
  cases hcat : dget LANGUAGES code with
  | none => simp [stepIns, langTranslationOutcome, hcat]
  | some name =>
    cases htr : translate_text oracle text name translation_mode with
    | none => simp [stepIns, langTranslationOutcome, hcat, htr]
    | some t =>
      by_cases ht : t = ""
      · subst ht
        simp [stepIns, langTranslationOutcome, hcat, htr]
      · simp [stepIns, langTranslationOutcome, hcat, htr, ht]

theorem translate_ok (oracle : TrOracle) (text : String)
    (languages : List String) (translation_mode : String)
    (htext : pyStrip text ≠ "") (hlang : languages ≠ []) :
    translate oracle text languages translation_mode =
      Except.ok (buildTranslations oracle (pyStrip text) translation_mode
        languages) := by
  unfold translate
  have h1 : (pyStrip text = "") = False := eq_false htext
  have h2 : languages.isEmpty = false := by
    cases languages with
    | nil => exact absurd rfl hlang
    | cons a l => rfl
  simp [h1, h2]

theorem dget_buildTranslations (oracle : TrOracle)
    (text translation_mode : String) (languages : List String)
    (l : String) :
    dget (buildTranslations oracle text translation_mode languages) l =
      if l ∈ languages then
        langTranslationOutcome oracle text translation_mode l
      else none := by
  rw [buildTranslations_eq_foldl, dget_foldl_stepIns]
  by_cases h1 : l ∈ languages
  · by_cases h2 :
      (langTranslationOutcome oracle text translation_mode l).isSome
    · simp [h1, h2]
    · have hnone := Option.not_isSome_iff_eq_none.mp h2
      simp [h1, h2, hnone, dget]
  · simp [h1, dget]

/-! ## Claim C1 -/

/-- Claim C1, as stated, is false on the code: when the translator fails
for JP and succeeds for FR, the failing language is not recorded as
failed with the captured error — it is absent from the returned mapping
altogether.  At the concrete scenario input the whole result is the
single FR entry and the mapping holds nothing at all for JP. -/
theorem C1_counterexample :
    translate failJP "hello" ["JP", "FR"] "faithful" =
      Except.ok [("FR", "bonjour")] ∧
    dmem [("FR", "bonjour")] "JP" = false := by decide

/-- Claim C1, amended: for every batch translation call over a language
set containing a failing and a succeeding language, the failing language
is silently omitted from the returned mapping (no failed record and no
error text is kept for it), every other language gets exactly the entry
its own translator outcome produces, and a per-language translator
failure is never raised past the batch call and never aborts the whole
batch — the call still returns the mapping of the surviving languages. -/
theorem C1_failure_isolation (oracle : TrOracle) (text : String)
    (languages : List String) (translation_mode : String)
    (htext : pyStrip text ≠ "") (hlang : languages ≠ []) :
    ∃ m, translate oracle text languages translation_mode = Except.ok m ∧
      ∀ l, dget m l =
        if l ∈ languages then
          langTranslationOutcome oracle (pyStrip text) translation_mode l
        else none := by
  refine ⟨buildTranslations oracle (pyStrip text) translation_mode
    languages, translate_ok oracle text languages translation_mode
      htext hlang, ?_⟩
  intro l
  exact dget_buildTranslations oracle (pyStrip text) translation_mode
    languages l

/-- Witness for C1_failure_isolation at the spec scenario: languages JP
and FR with a translator failing exactly on Japanese. -/
theorem C1_witness :
    (pyStrip "hello" ≠ "" ∧ (["JP", "FR"] : List String) ≠ []) ∧
    (∃ m, translate failJP "hello" ["JP", "FR"] "faithful" =
        Except.ok m ∧
      ∀ l, dget m l =
        if l ∈ (["JP", "FR"] : List String) then
          langTranslationOutcome failJP (pyStrip "hello") "faithful" l
        else none) :=
  ⟨⟨by decide, by decide⟩,
   C1_failure_isolation failJP "hello" ["JP", "FR"] "faithful"
     (by decide) (by decide)⟩

/-! ## Claim C2 -/

/-- Claim C2, as stated, is false on the code: with languages JP and FR
and a translator failing on Japanese, the returned key set is FR alone,
not the requested set — failed languages get no LanguageResult at all. -/
theorem C2_counterexample :
    translate failJP "hi" ["JP", "FR"] "faithful" =
      Except.ok [("FR", "bonjour")] ∧
    dkeys [("FR", "bonjour")] ≠ ["JP", "FR"] := by decide

/-- Claim C2, amended: for every non-empty duplicate-free language list L
and non-blank text, the batch translation result key set is exactly the
elements of L that are in the catalog and whose translation succeeded, in
request order — a subset of L rather than all of L. -/
theorem C2_result_key_set (oracle : TrOracle) (text : String)
    (languages : List String) (translation_mode : String)
    (hnd : languages.Nodup) (htext : pyStrip text ≠ "")
    (hlang : languages ≠ []) :
    ∃ m, translate oracle text languages translation_mode = Except.ok m ∧
      dkeys m = languages.filter (fun l =>
        (langTranslationOutcome oracle (pyStrip text) translation_mode
          l).isSome) := by
  refine ⟨buildTranslations oracle (pyStrip text) translation_mode
    languages, translate_ok oracle text languages translation_mode
      htext hlang, ?_⟩
  rw [buildTranslations_eq_foldl,
    dkeys_foldl_stepIns _ languages [] hnd (fun k _ => rfl)]
  rfl

/-- Witness for C2_result_key_set at the partial-failure scenario. -/
theorem C2_witness :
    ((["JP", "FR"] : List String).Nodup ∧ pyStrip "hi" ≠ "" ∧
      (["JP", "FR"] : List String) ≠ []) ∧
    (∃ m, translate failJP "hi" ["JP", "FR"] "faithful" = Except.ok m ∧
      dkeys m = (["JP", "FR"] : List String).filter (fun l =>
        (langTranslationOutcome failJP (pyStrip "hi") "faithful"
          l).isSome)) :=
  ⟨⟨by decide, by decide, by decide⟩,
   C2_result_key_set failJP "hi" ["JP", "FR"] "faithful"
     (by decide) (by decide) (by decide)⟩

/-! ## Claim C10 -/

/-- Claim C10, confirmed: language codes outside the catalog are silently
skipped — the result keys are inside both the requested list and the
catalog, and the per-language loop gives the same dict on the requested
list as on its catalog-filtered sublist; with non-blank text and a
non-empty request list the route answers 200 regardless of how many
unknown codes appear. -/
theorem C10_unknown_codes_skipped (oracle : TrOracle) (text : String)
    (languages : List String) (translation_mode : String)
    (htext : pyStrip text ≠ "") (hlang : languages ≠ []) :
    ∃ m, translate oracle text languages translation_mode = Except.ok m ∧
      (∀ l, dmem m l = true → l ∈ languages ∧ dmem LANGUAGES l = true) ∧
      buildTranslations oracle (pyStrip text) translation_mode languages =
        buildTranslations oracle (pyStrip text) translation_mode
          (languages.filter (fun l => dmem LANGUAGES l)) := by
  refine ⟨buildTranslations oracle (pyStrip text) translation_mode
    languages, translate_ok oracle text languages translation_mode
      htext hlang, ?_, ?_⟩
  · intro l hl
    have hget := dget_buildTranslations oracle (pyStrip text)
      translation_mode languages l
    by_cases hmem : l ∈ languages
    · refine ⟨hmem, ?_⟩
      rw [dmem, hget] at hl
      simp only [hmem, if_true, ite_true] at hl
      unfold langTranslationOutcome at hl
      cases hcat : dget LANGUAGES l with
      | none => rw [hcat] at hl; simp at hl
      | some name => simp [dmem, hcat]
    · rw [dmem, hget] at hl
      simp [hmem] at hl
  · rw [buildTranslations_eq_foldl, buildTranslations_eq_foldl]
    refine foldl_stepIns_filter _ _ ?_ languages []
    intro l hcat
    unfold langTranslationOutcome
    have : dget LANGUAGES l = none := by
      rw [dmem] at hcat
      exact Option.not_isSome_iff_eq_none.mp (by simp [hcat])
    rw [this]

/-- Witness for C10_unknown_codes_skipped with the unknown code XX in the
request list, which is skipped and causes no error. -/
theorem C10_witness :
    (pyStrip "hi" ≠ "" ∧ (["XX", "FR"] : List String) ≠ []) ∧
    (∃ m, translate okAll "hi" ["XX", "FR"] "faithful" = Except.ok m ∧
      (∀ l, dmem m l = true →
        l ∈ (["XX", "FR"] : List String) ∧ dmem LANGUAGES l = true) ∧
      buildTranslations okAll (pyStrip "hi") "faithful" ["XX", "FR"] =
        buildTranslations okAll (pyStrip "hi") "faithful"
          ((["XX", "FR"] : List String).filter
            (fun l => dmem LANGUAGES l))) :=
  ⟨⟨by decide, by decide⟩,
   C10_unknown_codes_skipped okAll "hi" ["XX", "FR"] "faithful"
     (by decide) (by decide)⟩

/-! ## Claim C6 -/

/-- Claim C6, confirmed: for every text and every collaborator, calling
batch translation with an empty language set is rejected — the Flask
route answers the 400 validation error and returns no mapping, and the
Streamlit translate handler leaves the whole session state, in
particular every per-language entry, unchanged. -/
theorem C6_empty_languages_rejected (oracle : TrOracle)
    (text translation_mode : String) (s : AppState) :
    translate oracle text [] translation_mode =
      Except.error ⟨400, "Text and languages are required"⟩ ∧
    runCall (StageCall.translateCall oracle text [] translation_mode)
      s = s := by
  constructor
  · unfold translate
    simp [List.isEmpty]
  · unfold runCall clickTranslate
    simp [List.isEmpty]

/-! ## Claim C5 -/

/-- Claim C5, confirmed: when no base video path is stored in the
session, the mix route fails as a whole with the 400 precondition error
and mutates nothing — the session state after the call, in particular
every per-language entry, equals the state before it. -/
theorem C5_mix_requires_video (mixOk : MixOk)
    (original_volume voiceover_volume : ℚ) (s : FlaskSession)
    (h : s.video_path = none) :
    (mix_audio_route mixOk original_volume voiceover_volume s).1 =
      Except.error ⟨400, "Audio files and video path are required"⟩ ∧
    (mix_audio_route mixOk original_volume voiceover_volume s).2 = s := by
  unfold mix_audio_route
  simp [h]

/-- Witness for C5_mix_requires_video: a session holding a voiceover but
no video. -/
theorem C5_witness :
    ((⟨"s1", [("JP", "a.mp3")], none, []⟩ : FlaskSession).video_path
        = none) ∧
    (mix_audio_route alwaysFailMix (8/10 : ℚ) (13/10 : ℚ)
        ⟨"s1", [("JP", "a.mp3")], none, []⟩).1 =
      Except.error ⟨400, "Audio files and video path are required"⟩ ∧
    (mix_audio_route alwaysFailMix (8/10 : ℚ) (13/10 : ℚ)
        ⟨"s1", [("JP", "a.mp3")], none, []⟩).2 =
      ⟨"s1", [("JP", "a.mp3")], none, []⟩ :=
  ⟨rfl, C5_mix_requires_video alwaysFailMix (8/10 : ℚ) (13/10 : ℚ)
    ⟨"s1", [("JP", "a.mp3")], none, []⟩ rfl⟩

/-! ## Claim C4 -/

/-- Claim C4, confirmed: for every mix call on a video whose audio track
runs the length of the video, the produced container duration equals the
original video duration whatever the voiceover duration is — the amix
filter is built with duration first, whose first input is the video
audio track — and the invocation copies the video stream (vcodec copy)
while re-encoding only the audio (acodec aac). -/
theorem C4_mix_duration (audio_file video_file : MediaFile)
    (output_file : String) (original_volume voiceover_volume : ℚ)
    (h : video_file.audioDur = video_file.videoDur) :
    outputDuration (mix_audio_with_video audio_file video_file
      output_file original_volume voiceover_volume) =
        video_file.videoDur ∧
    (mix_audio_with_video audio_file video_file output_file
      original_volume voiceover_volume).vcodec = "copy" ∧
    (mix_audio_with_video audio_file video_file output_file
      original_volume voiceover_volume).acodec = "aac" ∧
    (mix_audio_with_video audio_file video_file output_file
      original_volume voiceover_volume).videoStreamDur =
        video_file.videoDur := by
  refine ⟨?_, rfl, rfl, rfl⟩
  unfold outputDuration mix_audio_with_video astreamDur
  simp [astreamDur, h]

/-- Witness for C4_mix_duration, with a voiceover longer than the
source video and one shorter than it. -/
theorem C4_witness :
    outputDuration (mix_audio_with_video ⟨0, 100⟩ ⟨30, 30⟩ "o.mp4"
      (8/10 : ℚ) (13/10 : ℚ)) = 30 ∧
    outputDuration (mix_audio_with_video ⟨0, 10⟩ ⟨30, 30⟩ "o.mp4"
      (8/10 : ℚ) (13/10 : ℚ)) = 30 :=
  ⟨(C4_mix_duration ⟨0, 100⟩ ⟨30, 30⟩ "o.mp4" (8/10 : ℚ) (13/10 : ℚ)
      rfl).1,
   (C4_mix_duration ⟨0, 10⟩ ⟨30, 30⟩ "o.mp4" (8/10 : ℚ) (13/10 : ℚ)
      rfl).1⟩

/-! ## Claim C7 -/

/-- Claim C7, as stated, is false on the code: a history in which every
mix failed leaves an empty mixed-videos dict, and the packaging route
then answers a 404 error instead of succeeding — packaging does not
succeed on every partial-failure history. -/
theorem C7_counterexample :
    download_all (fun _ => true)
      ((mix_audio_route alwaysFailMix (8/10 : ℚ) (13/10 : ℚ)
        ⟨"s1", [("JP", "a.mp3")], some "base.mp4", []⟩).2) =
      Except.error ⟨404, "No videos to download"⟩ := by decide

/-- Claim C7, amended: whenever at least one language is at the mixed
stage and the recorded files are still on disk, packaging succeeds and
the archive lists exactly the mixed artifacts — one entry per mixed
language, none omitted and none from an earlier or failed stage; but a
batch in which no language reached mixed is answered with a 404 error
instead of an empty archive. -/
theorem C7_package_exactly_mixed (file_exists : String → Bool)
    (s : FlaskSession) (h1 : s.mixed_videos ≠ [])
    (h2 : ∀ p ∈ s.mixed_videos, file_exists p.2 = true) :
    download_all file_exists s =
      Except.ok (s.mixed_videos.map (fun p => (pyBasename p.2, p.2))) := by
  unfold download_all
  have he : s.mixed_videos.isEmpty = false := by
    cases hm : s.mixed_videos with
    | nil => exact absurd hm h1
    | cons a l => rfl
  rw [List.filter_eq_self.mpr h2]
  simp [he]

/-- Witness for C7_package_exactly_mixed: one mixed language, one failed
language absent from the dict; the archive holds exactly the mixed one. -/
theorem C7_witness :
    (([("FR", "temp_files/s1/export/v_FR.mp4")] : Dict) ≠ [] ∧
      ∀ p ∈ ([("FR", "temp_files/s1/export/v_FR.mp4")] : Dict),
        (fun _ => true) p.2 = true) ∧
    download_all (fun _ => true)
      ⟨"s1", [("FR", "a.mp3")], some "base.mp4",
        [("FR", "temp_files/s1/export/v_FR.mp4")]⟩ =
      Except.ok [("v_FR.mp4", "temp_files/s1/export/v_FR.mp4")] := by
  refine ⟨⟨by decide, by intro p _; rfl⟩, ?_⟩
  have := C7_package_exactly_mixed (fun _ => true)
    ⟨"s1", [("FR", "a.mp3")], some "base.mp4",
      [("FR", "temp_files/s1/export/v_FR.mp4")]⟩
    (by decide) (by intro p _; rfl)
  rw [this]
  decide

/-! ## Claim C8 -/

/-- Claim C8, as stated, is false on the code: on the audio-extraction
failure path transcribe_video returns before its cleanup block, so when
the transcoder has already written a (partial) output file, that
temporary extracted-audio artifact is still on disk at the end of the
run. -/
theorem C8_counterexample :
    transcribe_video ⟨false, true, none⟩ =
      ⟨none, true⟩ := by decide

/-- Claim C8, amended: the temporary extracted-audio artifact is deleted
by the end of every run in which extraction succeeded — including the
speech-to-text failure path and the empty-transcription path — but on
the extraction-failure path no cleanup runs, so the artifact remains on
disk exactly when the failed extraction left a file behind. -/
theorem C8_cleanup (run : TranscribeRun) :
    (transcribe_video run).temp_audio_remains =
      (!run.extract_succeeds && run.extract_leaves_file) := by
  unfold transcribe_video
  cases h : run.extract_succeeds <;> simp [h]

/-! ## Claim C3 -/

theorem dmem_nil (l : String) : dmem [] l = false := rfl

theorem dmem_foldl_of_step (step : Dict → String × String → Dict)
    (hstep : ∀ acc p l, dmem (step acc p) l = true →
      dmem acc l = true ∨ l = p.1) :
    ∀ (pairs acc : Dict) (l : String),
      dmem (pairs.foldl step acc) l = true →
      dmem acc l = true ∨ ∃ p ∈ pairs, p.1 = l := by
  intro pairs
  induction pairs with
  | nil => intro acc l h; exact Or.inl h
  | cons q pairs ih =>
    intro acc l h
    rcases ih (step acc q) l h with hacc | ⟨p, hp, hl⟩
    · rcases hstep acc q l hacc with h1 | h2
      · exact Or.inl h1
      · exact Or.inr ⟨q, List.mem_cons_self q pairs, h2.symm⟩
    · exact Or.inr ⟨p, List.mem_cons_of_mem _ hp, hl⟩

theorem clickTranslate_audio_files (oracle : TrOracle) (text : String)
    (selected : List String) (translation_mode : String) (s : AppState) :
    (clickTranslate oracle text selected translation_mode s).audio_files
      = s.audio_files := by
  unfold clickTranslate
  split <;> rfl

theorem clickTranslate_mixed_videos (oracle : TrOracle) (text : String)
    (selected : List String) (translation_mode : String) (s : AppState) :
    (clickTranslate oracle text selected translation_mode s).mixed_videos
      = s.mixed_videos := by
  unfold clickTranslate
  split <;> rfl

theorem clickVoice_mixed_videos (voice : VoiceOracle) (s : AppState) :
    (clickVoice voice s).mixed_videos = s.mixed_videos := by
  unfold clickVoice
  split <;> rfl

theorem stage_clickVoice_mono (voice : VoiceOracle) (s : AppState)
    (l : String) (ha : s.audio_files = []) (hm : s.mixed_videos = []) :
    stage_reached s l ≤ stage_reached (clickVoice voice s) l := by
  obtain ⟨tr, au, mx, vps⟩ := s
  have ha2 : au = [] := ha
  have hm2 : mx = [] := hm
  subst ha2
  subst hm2
  by_cases hT : tr.isEmpty
  · simp [clickVoice, hT]
  · simp only [clickVoice, hT, Bool.false_eq_true, if_false, ite_false,
      stage_reached, dmem_nil]
    split_ifs <;> omega

theorem stage_clickMix_mono (mixer : MixOracle) (s : AppState)
    (l : String) (hm : s.mixed_videos = []) :
    stage_reached s l ≤ stage_reached (clickMix mixer s) l := by
  obtain ⟨tr, au, mx, vps⟩ := s
  have hm2 : mx = [] := hm
  subst hm2
  by_cases hg : au.isEmpty || vps.isNone
  · simp [clickMix, hg]
  · simp only [clickMix, hg, Bool.false_eq_true, if_false, ite_false,
      stage_reached, dmem_nil]
    split_ifs <;> omega

/-- Claim C3, as stated, is false on the code: after a full successful
pass over JP and FR (FR reaches the mixed stage, numerically 3), a second
pass in which the translator fails for FR drops FR from the rebuilt
translations dict, then the voice stage rebuilds audio_files without FR,
then the mix stage rebuilds mixed_videos without FR — FR regresses from
mixed all the way back to pending (0), so stage_reached is not
monotonic across repeated stage calls. -/
theorem C3_counterexample :
    stage_reached (runCalls passOne demoStart) "FR" = 3 ∧
    stage_reached (runCalls (passOne ++ passTwo) demoStart) "FR" = 0 := by
  decide

/-- Claim C3, amended: stage_reached is monotonically non-decreasing
along a single forward pass — one translate call, then one voice call,
then one mix call, starting from a fresh state whose per-language dicts
are empty — and each advancing call requires the prior artifact at call
time: every language put into audio_files by a voice call has a current
translation, and every language put into mixed_videos by a mix call has
a current voice artifact (unless the call was rejected by its own guard
and changed nothing).  Across repeated stage calls monotonicity fails,
because each stage call rebuilds its dict from scratch. -/
theorem C3_single_pass_monotone (oracle : TrOracle)
    (voice : VoiceOracle) (mixer : MixOracle) (text : String)
    (selected : List String) (translation_mode : String)
    (vp : Option String) (l : String) :
    (stage_reached (⟨[], [], [], vp⟩ : AppState) l ≤
        stage_reached
          (clickTranslate oracle text selected translation_mode
            ⟨[], [], [], vp⟩) l ∧
      stage_reached
          (clickTranslate oracle text selected translation_mode
            ⟨[], [], [], vp⟩) l ≤
        stage_reached
          (clickVoice voice
            (clickTranslate oracle text selected translation_mode
              ⟨[], [], [], vp⟩)) l ∧
      stage_reached
          (clickVoice voice
            (clickTranslate oracle text selected translation_mode
              ⟨[], [], [], vp⟩)) l ≤
        stage_reached
          (clickMix mixer
            (clickVoice voice
              (clickTranslate oracle text selected translation_mode
                ⟨[], [], [], vp⟩))) l) ∧
    (∀ s : AppState, (clickVoice voice s).audio_files.all
        (fun p => s.translations.isEmpty || dmem s.translations p.1)
      = true) ∧
    (∀ s : AppState, (clickMix mixer s).mixed_videos.all
        (fun p => s.audio_files.isEmpty || s.video_path.isNone ||
          dmem s.audio_files p.1) = true) := by
  refine ⟨⟨?_, ?_, ?_⟩, ?_, ?_⟩
  · exact Nat.zero_le _
  · exact stage_clickVoice_mono voice _ l
      (clickTranslate_audio_files oracle text selected translation_mode _)
      (clickTranslate_mixed_videos oracle text selected translation_mode _)
  · refine stage_clickMix_mono mixer _ l ?_
    rw [clickVoice_mixed_videos,
      clickTranslate_mixed_videos oracle text selected translation_mode _]
  · intro s
    unfold clickVoice
    by_cases hT : s.translations.isEmpty
    · simp [hT]
    · simp only [hT, Bool.false_eq_true, if_false, ite_false,
        List.all_eq_true]
      intro p hp
      have hmem := mem_imp_dmem _ p hp
      have hstep : ∀ (acc : Dict) (q : String × String) (k : String),
          dmem ((fun acc q =>
            match voice q.1 q.2 with
            | some output_file => dinsert acc q.1 output_file
            | none => acc) acc q) k = true →
          dmem acc k = true ∨ k = q.1 := by
        intro acc q k hk
        by_cases hkq : k = q.1
        · exact Or.inr hkq
        · refine Or.inl ?_
          cases hv : voice q.1 q.2 with
          | none => simpa [hv] using hk
          | some f =>
            have hk2 : dmem (dinsert acc q.1 f) k = true := by
              simpa [hv] using hk
            rwa [dmem_dinsert, if_neg hkq] at hk2
      rcases dmem_foldl_of_step _ hstep s.translations [] p.1 hmem with
        hnil | ⟨q, hq, hql⟩
      · exact absurd hnil (by simp [dmem_nil])
      · simp [(dmem_iff_exists s.translations p.1).mpr ⟨q, hq, hql⟩]
  · intro s
    unfold clickMix
    by_cases hg : s.audio_files.isEmpty || s.video_path.isNone
    · rcases Bool.or_eq_true_iff.mp hg with h | h <;> simp [hg, h]
    · simp only [hg, Bool.false_eq_true, if_false, ite_false,
        List.all_eq_true]
      intro p hp
      have hmem := mem_imp_dmem _ p hp
      have hstep : ∀ (acc : Dict) (q : String × String) (k : String),
          dmem ((fun acc q =>
            if mixer q.2 (s.video_path.getD "") then
              dinsert acc q.1
                ("New clean ones 2025/export/"
                  ++ mixOutName (pyPathName (s.video_path.getD "")) q.1)
            else acc) acc q) k = true →
          dmem acc k = true ∨ k = q.1 := by
        intro acc q k hk
        by_cases hkq : k = q.1
        · exact Or.inr hkq
        · refine Or.inl ?_
          cases hv : mixer q.2 (s.video_path.getD "") with
          | false => simpa [hv] using hk
          | true =>
            have hk2 : dmem (dinsert acc q.1
                ("New clean ones 2025/export/"
                  ++ mixOutName (pyPathName (s.video_path.getD "")) q.1))
                k = true := by
              simpa [hv] using hk
            rwa [dmem_dinsert, if_neg hkq] at hk2
      rcases dmem_foldl_of_step _ hstep s.audio_files [] p.1 hmem with
        hnil | ⟨q, hq, hql⟩
      · exact absurd hnil (by simp [dmem_nil])
      · simp [(dmem_iff_exists s.audio_files p.1).mpr ⟨q, hq, hql⟩]

/-! ## Path lemmas for claim C9 -/

theorem splitSlash_ne_nil : ∀ s : List Char, splitSlash s ≠ [] := by
  intro s
  induction s with
  | nil => simp [splitSlash]
  | cons c cs ih =>
    by_cases hc : c = '/'
    · simp [splitSlash, hc]
    · cases hcs : splitSlash cs with
      | nil => exact absurd hcs ih
      | cons hd tl => simp [splitSlash, hc, hcs]

theorem splitSlash_slash (cs : List Char) :
    splitSlash ('/' :: cs) = [] :: splitSlash cs := by
  simp [splitSlash]

theorem splitSlash_cons_ne (c : Char) (cs : List Char) (h : c ≠ '/') :
    splitSlash (c :: cs) =
      (c :: (splitSlash cs).headD []) :: (splitSlash cs).tail := by
  cases hcs : splitSlash cs with
  | nil => exact absurd hcs (splitSlash_ne_nil cs)
  | cons hd tl => simp [splitSlash, h, hcs]

theorem getLastD_irrel {α : Type} (l : List α) (h : l ≠ []) (d e : α) :
    l.getLastD d = l.getLastD e := by
  cases l with
  | nil => exact absurd rfl h
  | cons a l => rw [List.getLastD_cons, List.getLastD_cons]

theorem getLastD_mem {α : Type} :
    ∀ (l : List α) (d : α), l ≠ [] → l.getLastD d ∈ l := by
  intro l
  induction l with
  | nil => intro d h; exact absurd rfl h
  | cons a l ih =>
    intro d _
    rw [List.getLastD_cons]
    by_cases hl : l = []
    · subst hl
      simp [List.getLastD]
    · exact List.mem_cons_of_mem a (ih a hl)

theorem dropLast_append_getLastD {α : Type} :
    ∀ (l : List α) (d : α), l ≠ [] → l.dropLast ++ [l.getLastD d] = l := by
  intro l
  induction l with
  | nil => intro d h; exact absurd rfl h
  | cons a l ih =>
    intro d _
    by_cases hl : l = []
    · subst hl
      simp [List.getLastD]
    · rw [List.getLastD_cons]
      have hdl : (a :: l).dropLast = a :: l.dropLast := by
        cases l with
        | nil => exact absurd rfl hl
        | cons b t => rfl
      rw [hdl, List.cons_append, ih a hl]

theorem getLastD_append_of_ne_nil {α : Type} (A : List α) :
    ∀ (B : List α) (d : α), B ≠ [] →
      (A ++ B).getLastD d = B.getLastD d := by
  induction A with
  | nil => intro B d _; rfl
  | cons a A ih =>
    intro B d hB
    have hAB : A ++ B ≠ [] := by
      intro h
      exact hB (List.append_eq_nil.mp h).2
    rw [List.cons_append, List.getLastD_cons, ih B a hB,
      getLastD_irrel B hB a d]

theorem splitSlash_append (xs ys : List Char) :
    splitSlash (xs ++ '/' :: ys) =
      (splitSlash xs).dropLast
        ++ ((splitSlash xs).getLastD [] :: splitSlash ys) := by
  induction xs with
  | nil => simp [splitSlash_slash, splitSlash, List.getLastD]
  | cons c xs ih =>
    by_cases hc : c = '/'
    · subst hc
      rw [List.cons_append, splitSlash_slash, ih, splitSlash_slash]
      cases hS : splitSlash xs with
      | nil => exact absurd hS (splitSlash_ne_nil xs)
      | cons hd tl => simp [List.getLastD_cons]
    · rw [List.cons_append, splitSlash_cons_ne c _ hc, ih,
        splitSlash_cons_ne c xs hc]
      cases hS : splitSlash xs with
      | nil => exact absurd hS (splitSlash_ne_nil xs)
      | cons hd tl =>
        cases htl : tl with
        | nil => simp [List.getLastD_cons, List.getLastD]
        | cons b t => rfl

theorem mem_splitSlash_no_slash :
    ∀ (s : List Char) (p : List Char), p ∈ splitSlash s → '/' ∉ p := by
  intro s
  induction s with
  | nil =>
    intro p hp
    simp [splitSlash] at hp
    simp [hp]
  | cons c cs ih =>
    intro p hp
    by_cases hc : c = '/'
    · subst hc
      rw [splitSlash_slash] at hp
      rcases List.mem_cons.mp hp with heq | hmem
      · simp [heq]
      · exact ih p hmem
    · rw [splitSlash_cons_ne c cs hc] at hp
      cases hcs : splitSlash cs with
      | nil => exact absurd hcs (splitSlash_ne_nil cs)
      | cons hd tl =>
        rw [hcs] at hp
        rcases List.mem_cons.mp hp with heq | hmem
        · subst heq
          intro hmem2
          rcases List.mem_cons.mp hmem2 with heq2 | hmem3
          · exact hc heq2.symm
          · have hhd : hd ∈ splitSlash cs := by
              rw [hcs]; exact List.mem_cons_self hd tl
            exact ih hd hhd hmem3
        · have hp2 : p ∈ splitSlash cs := by
            rw [hcs]
            exact List.mem_cons_of_mem hd (by simpa using hmem)
          exact ih p hp2

theorem splitSlash_of_no_slash :
    ∀ (s : List Char), '/' ∉ s → splitSlash s = [s] := by
  intro s
  induction s with
  | nil => intro _; rfl
  | cons c cs ih =>
    intro h
    have hc : c ≠ '/' := fun hcc => h (hcc ▸ List.mem_cons_self c cs)
    have hcs : '/' ∉ cs := fun hmem => h (List.mem_cons_of_mem c hmem)
    rw [splitSlash_cons_ne c cs hc, ih hcs]
    rfl

theorem pathParts_append (xs ys : List Char) :
    pathParts (xs ++ '/' :: ys) = pathParts xs ++ pathParts ys := by
  unfold pathParts
  rw [splitSlash_append]
  have hS := splitSlash_ne_nil xs
  have hsplit : (splitSlash xs).dropLast
      ++ [(splitSlash xs).getLastD []] = splitSlash xs :=
    dropLast_append_getLastD (splitSlash xs) [] hS
  conv_rhs => rw [← hsplit]
  rw [show ((splitSlash xs).getLastD [] :: splitSlash ys)
      = [(splitSlash xs).getLastD []] ++ splitSlash ys from rfl,
    List.filter_append, List.filter_append, List.filter_append,
    List.append_assoc]

theorem pathNameL_append (xs ys : List Char)
    (h : pathParts ys ≠ []) :
    pathNameL (xs ++ '/' :: ys) = pathNameL ys := by
  unfold pathNameL
  rw [pathParts_append, getLastD_append_of_ne_nil _ _ _ h]

theorem pathNameL_no_slash (s : List Char) : '/' ∉ pathNameL s := by
  unfold pathNameL
  cases h : pathParts s with
  | nil => simp [List.getLastD]
  | cons hd tl =>
    have hmem : (hd :: tl).getLastD [] ∈ hd :: tl :=
      getLastD_mem (hd :: tl) [] (by simp)
    have hmem1 : (hd :: tl).getLastD [] ∈ pathParts s := by
      rw [h]
      exact hmem
    unfold pathParts at hmem1
    exact mem_splitSlash_no_slash s _ (List.mem_of_mem_filter hmem1)

theorem pathNameL_idem (s : List Char) :
    pathNameL (pathNameL s) = pathNameL s := by
  cases h : pathParts s with
  | nil =>
    have hname : pathNameL s = [] := by
      unfold pathNameL
      rw [h]
      rfl
    rw [hname]
    rfl
  | cons hd tl =>
    have hmem : pathNameL s ∈ pathParts s := by
      unfold pathNameL
      rw [h]
      exact getLastD_mem (hd :: tl) [] (by simp)
    have hkeep : (decide (pathNameL s ≠ [] ∧ pathNameL s ≠ ['.']))
        = true := by
      unfold pathParts at hmem
      exact (List.mem_filter.mp hmem).2
    have hns : '/' ∉ pathNameL s := pathNameL_no_slash s
    have hsplit : splitSlash (pathNameL s) = [pathNameL s] :=
      splitSlash_of_no_slash _ hns
    have hparts : pathParts (pathNameL s) = [pathNameL s] := by
      unfold pathParts
      rw [hsplit, List.filter_cons]
      simp only [hkeep, if_true, ite_true, List.filter_nil]
    have hstep : pathNameL (pathNameL s)
        = (pathParts (pathNameL s)).getLastD [] := rfl
    rw [hstep, hparts, List.getLastD_cons]
    rfl

/-! ## Claim C9 -/

/-- Claim C9, confirmed: for both preview routes the file actually opened
is the pathlib base name of the requested path resolved inside the
session-scoped audio (respectively export) directory; the base name can
contain no slash, so no directory component of the request survives, and
two requests differing only by a directory-traversal prefix resolve to
the same served file. -/
theorem C9_serve_uses_basename (session_id pre filepath : List Char)
    (h : pathParts filepath ≠ []) :
    serveAudioTarget session_id filepath =
      serveAudioTarget session_id (pathNameL filepath) ∧
    serveVideoTarget session_id filepath =
      serveVideoTarget session_id (pathNameL filepath) ∧
    ('/' ∉ pathNameL filepath) ∧
    serveAudioTarget session_id (pre ++ '/' :: filepath) =
      serveAudioTarget session_id filepath ∧
    serveVideoTarget session_id (pre ++ '/' :: filepath) =
      serveVideoTarget session_id filepath := by
  refine ⟨?_, ?_, pathNameL_no_slash filepath, ?_, ?_⟩
  · unfold serveAudioTarget
    rw [pathNameL_idem]
  · unfold serveVideoTarget
    rw [pathNameL_idem]
  · unfold serveAudioTarget
    rw [pathNameL_append pre filepath h]
  · unfold serveVideoTarget
    rw [pathNameL_append pre filepath h]

/-- Witness for C9_serve_uses_basename at the traversal scenario from the
claim: requesting the path built from a dot-dot prefix in front of
x.mp3 serves the same file as requesting x.mp3 directly. -/
theorem C9_witness :
    pathParts ("x.mp3".toList) ≠ [] ∧
    serveAudioTarget ("s1".toList)
        (("..".toList) ++ '/' :: ("x.mp3".toList)) =
      serveAudioTarget ("s1".toList) ("x.mp3".toList) :=
  ⟨by decide,
   (C9_serve_uses_basename ("s1".toList) ("..".toList) ("x.mp3".toList)
     (by decide)).2.2.2.1⟩

end AdLocalizer
